import Mathlib

/-
  Verification development for the PPO implementation in `ppo.py`
  (class `PPO`: `__init__`, `take_action`, `train`, `compute_advantage`).

  Shallow embedding conventions:
  * Scalars are modelled as rationals (`ℚ`); machine floats in the source
    carry real-number semantics except where non-finite values matter, in
    which case the extended type `FVal` (finite / +inf / -inf / nan) is used
    for the log-probability / ratio / policy-loss pipeline, mirroring IEEE
    behaviour of the torch operations actually applied.
  * The neural networks (`PolicyNet`, `ValueNet` from `utils`, not part of
    this repository's single source file) and the Adam optimizer are the
    out-of-scope collaborators: they are abstract parameters
    (`policyProb`, `valueFn`, `stepP`, `stepV`).  `np.random.shuffle` is
    modelled by passing the shuffled index list of each epoch explicitly.
  * `.detach()` detaches gradients; gradient flow itself is not modelled,
    only the values computed.
-/

namespace PPOSpec

/-- The rational 0/1 image of a `done` flag, matching
`done_tensor = th.as_tensor(...).long()` used as `1 - done` in `ppo.py`. -/
def boolToQ (b : Bool) : ℚ := if b then 1 else 0

/-! ### `PPO.compute_advantage`

Source (`ppo.py`):
```
advantage = 0
for tau_idx in reversed(range(td_delta_arr.shape[0])):
    if done_arr[tau_idx]:
        advantage = 0
    advantage = advantage + self.gamma * self.lamda * td_delta_arr[tau_idx]
    buffer_dict['advantages'][tau_idx] = advantage
```
`gaeRun` processes the index-aligned list of `(done, td_delta)` pairs;
`run` is the value the accumulator has when the segment's last index is
reached (0 for the whole buffer).  It returns the advantage list together
with the accumulator value after the loop (the advantage written at the
head index, or `run` for an empty segment). -/
def gaeRun (gamma lamda : ℚ) : List (Bool × ℚ) → ℚ → List ℚ × ℚ
  | [], run => ([], run)
  | (d, delta) :: rest, run =>
    let tail := gaeRun gamma lamda rest run
    let r0 := if d then 0 else tail.2
    let a := r0 + gamma * lamda * delta
    (a :: tail.1, a)

/-- The advantage list computed by `PPO.compute_advantage` from the
index-aligned `(done, td_delta)` pairs, accumulator starting at 0. -/
def computeAdvantage (gamma lamda : ℚ) (l : List (Bool × ℚ)) : List ℚ :=
  (gaeRun gamma lamda l 0).1

/-- The buffer mapping exchanged with the driver (`buffer_dict`): the raw
trajectory keys plus the derived keys `td_delta` and `advantages`. -/
structure Buffer (Obs : Type) where
  observations : List Obs
  actions : List Nat
  next_observations : List Obs
  rewards : List ℚ
  dones : List Bool
  td_delta : List ℚ
  advantages : List ℚ
deriving DecidableEq

/-- Embeds `PPO.compute_advantage(buffer_dict)` acting on the buffer
mapping: it reads the `dones` and `td_delta` entries (index-aligned, per
the buffer invariant; a misaligned shorter `dones` would raise IndexError
in Python and is outside the modelled domain) and overwrites the
`advantages` entry. -/
def computeAdvantageBuf (gamma lamda : ℚ) {Obs : Type} (b : Buffer Obs) : Buffer Obs :=
  { b with advantages := computeAdvantage gamma lamda (b.dones.zip b.td_delta) }

/-! ### Minibatch slicing in `PPO.train`

Source:
```
for sgd_idx in range(0, idx_arr.shape[0], self.batch_size):
    sgd_idx_arr = idx_arr[sgd_idx: sgd_idx + self.batch_size]
```
For `B > 0`, `range(0, N, B)` has `(N + B - 1) / B` elements
`0, B, 2B, ...` (Python `range` raises for step 0; all theorems assume
`0 < B`). -/
def minibatches (B : Nat) (perm : List Nat) : List (List Nat) :=
  (List.range ((perm.length + B - 1) / B)).map (fun i => (perm.drop (i * B)).take B)

/-! ### `PPO.__init__` -/

/-- The configuration fields `__init__` stores on `self` (the two networks
and optimizers it also builds are the abstract collaborators).
`batch_size` is a Python `int`, hence `Int` here. -/
structure PPOState where
  batch_size : Int
  latent_dim : Nat
  gamma : ℚ
  lamda : ℚ
  epsilon : ℚ
  n_epoch : Nat
deriving DecidableEq

/-- Embeds `PPO.__init__`.  The body is a sequence of attribute
assignments with no `raise` and no operation that can raise, so the
embedding (Option-valued to give a Python exception a place to land)
always returns `some`: every `batch_size`, including non-positive ones,
is accepted and stored unchanged. -/
def ppoInit (gamma : ℚ) (batch_size : Int) (latent_dim : Nat)
    (lamda epsilon : ℚ) (n_epoch : Nat) : Option PPOState :=
  some {
    batch_size := batch_size
    latent_dim := latent_dim
    gamma := gamma
    lamda := lamda
    epsilon := epsilon
    n_epoch := n_epoch
  }

/-! ### Extended values

The log-probability / ratio / policy-loss pipeline of `train` applies
`th.log`, `th.exp`, `th.clamp`, `th.min`, `th.mean` to float tensors, and
`th.log` yields `-inf` on probability 0 (and NaN on a negative input).
`FVal` gives these operations their IEEE-754 semantics over exact
rationals. -/
inductive FVal where
  | fin (q : ℚ)
  | posInf
  | negInf
  | nan
deriving DecidableEq

namespace FVal

/-- IEEE subtraction, used for `sgd_log_prob - sgd_old_log_prob`. -/
def sub : FVal → FVal → FVal
  | nan, _ => nan
  | _, nan => nan
  | fin a, fin b => fin (a - b)
  | fin _, posInf => negInf
  | fin _, negInf => posInf
  | posInf, fin _ => posInf
  | posInf, posInf => nan
  | posInf, negInf => posInf
  | negInf, fin _ => negInf
  | negInf, negInf => nan
  | negInf, posInf => negInf

/-- IEEE addition (for summation inside `th.mean`). -/
def add : FVal → FVal → FVal
  | nan, _ => nan
  | _, nan => nan
  | fin a, fin b => fin (a + b)
  | fin _, posInf => posInf
  | fin _, negInf => negInf
  | posInf, fin _ => posInf
  | posInf, posInf => posInf
  | posInf, negInf => nan
  | negInf, fin _ => negInf
  | negInf, negInf => negInf
  | negInf, posInf => nan

/-- IEEE negation, for `-th.mean(...)`. -/
def neg : FVal → FVal
  | fin a => fin (-a)
  | posInf => negInf
  | negInf => posInf
  | nan => nan

/-- IEEE multiplication (`0 * ±inf = nan`), for `ratio * advantage`. -/
def mul : FVal → FVal → FVal
  | nan, _ => nan
  | _, nan => nan
  | fin a, fin b => fin (a * b)
  | fin a, posInf => if 0 < a then posInf else if a < 0 then negInf else nan
  | fin a, negInf => if 0 < a then negInf else if a < 0 then posInf else nan
  | posInf, fin b => if 0 < b then posInf else if b < 0 then negInf else nan
  | negInf, fin b => if 0 < b then negInf else if b < 0 then posInf else nan
  | posInf, posInf => posInf
  | posInf, negInf => negInf
  | negInf, posInf => negInf
  | negInf, negInf => posInf

/-- `th.exp`; `expFn` is the restriction of the real exponential to finite
arguments (abstract collaborator, `exp(-inf) = 0`). -/
def fexp (expFn : ℚ → ℚ) : FVal → FVal
  | fin a => fin (expFn a)
  | posInf => posInf
  | negInf => fin 0
  | nan => nan

/-- `th.clamp(x, lo, hi) = min(max(x, lo), hi)`; NaN propagates. -/
def clamp (lo hi : ℚ) : FVal → FVal
  | fin a => fin (min (max a lo) hi)
  | posInf => fin hi
  | negInf => fin (min lo hi)
  | nan => nan

/-- Elementwise `th.min`; NaN propagates. -/
def fmin : FVal → FVal → FVal
  | nan, _ => nan
  | _, nan => nan
  | fin a, fin b => fin (min a b)
  | fin _, negInf => negInf
  | fin a, posInf => fin a
  | negInf, _ => negInf
  | posInf, b => b

/-- Division by the (positive) element count, for `th.mean`. -/
def divNat : FVal → Nat → FVal
  | fin a, n => fin (a / n)
  | posInf, _ => posInf
  | negInf, _ => negInf
  | nan, _ => nan

/-- Sum of a tensor's entries. -/
def fsum (l : List FVal) : FVal := l.foldr add (fin 0)

/-- `th.mean`: sum divided by element count (NaN on an empty tensor). -/
def fmean (l : List FVal) : FVal :=
  match l with
  | [] => nan
  | _ => divNat (fsum l) l.length

end FVal

/-- `th.log` on a probability: finite logarithm (`logFn`, the abstract
real logarithm on positive arguments) for positive input, `-inf` at 0,
NaN on negative input — exactly torch's behaviour; `ppo.py` applies it
with no epsilon. -/
def flog (logFn : ℚ → ℚ) (p : ℚ) : FVal :=
  if 0 < p then .fin (logFn p) else if p = 0 then .negInf else .nan

/-- Mean of a rational list (`F.mse_loss` reduction); minibatches are
never empty where it is used. -/
def qmean (l : List ℚ) : ℚ := l.sum / l.length

/-! ### `PPO.train`

The buffer arrays become index functions over `0 .. len-1`; the policy
network composed with the `gather` of the taken action becomes
`policyProb` (probability the policy with parameters `P` assigns to the
stored action at buffer index `t` — `ppo.py`'s `PolicyNet` outputs
probabilities, which the code feeds to `th.log` directly); the value
network becomes `valueFn`; one `optimizer.zero_grad(); loss.backward();
optimizer.step()` round becomes an abstract parameter-update function of
the current parameters and everything computed in the minibatch.  The
fresh `np.random.shuffle` of each epoch is modelled by the caller passing
the list of shuffled index arrays, one per epoch (`n_epoch = perms.length`). -/

/-- The raw trajectory arrays `train` reads from `buffer_dict`, as index
functions plus the common length (`obs_tensor.shape[0]`). -/
structure TrainBuffer (Obs : Type) where
  len : Nat
  obs : Nat → Obs
  nextObs : Nat → Obs
  act : Nat → Nat
  rew : Nat → ℚ
  done : Nat → Bool

/-- Hyperparameters `train` reads from `self`. -/
structure Hyper where
  gamma : ℚ
  lamda : ℚ
  epsilon : ℚ
  batchSize : Nat

/-- Everything computed for one minibatch of one epoch, in source order:
`sgd_idx_arr`, the parameters in effect when the minibatch starts, the
gathered `sgd_old_log_prob`, the recomputed `sgd_log_prob`, `ratio`,
`th.min(surr0, surr1)`, the recomputed `value` / `next_value` /
`td_target`, and the two losses. -/
structure MBRec (P V : Type) where
  idx : List Nat
  pBefore : P
  vBefore : V
  oldLogProb : List FVal
  logProb : List FVal
  ratio : List FVal
  surrMin : List FVal
  value : List ℚ
  nextValue : List ℚ
  tdTarget : List ℚ
  policyLoss : FVal
  valueLoss : ℚ
deriving DecidableEq

/-- The abstract collaborators and hyperparameters threaded through
`train`'s loops. -/
structure TrainCtx (Obs P V : Type) where
  H : Hyper
  policyProb : P → Obs → Nat → ℚ
  valueFn : V → Obs → ℚ
  logFn : ℚ → ℚ
  expFn : ℚ → ℚ
  stepP : P → MBRec P V → P
  stepV : V → MBRec P V → V
  Bf : TrainBuffer Obs

section Train

variable {Obs P V : Type}

/-- `th.log(th.gather(policy_net(obs), 1, action))` at buffer index `t`
under policy parameters `p` — used both for the `old_log_prob` snapshot
and for the per-minibatch recomputation (the same expression appears
twice in the source). -/
def logAtD (C : TrainCtx Obs P V) (p : P) (t : Nat) : FVal :=
  flog C.logFn (C.policyProb p (C.Bf.obs t) (C.Bf.act t))

/-- `ratio = th.exp(sgd_log_prob - sgd_old_log_prob)` at buffer index `t`. -/
def ratioAtD (C : TrainCtx Obs P V) (oldLP : Nat → FVal) (p : P) (t : Nat) : FVal :=
  FVal.fexp C.expFn (FVal.sub (logAtD C p t) (oldLP t))

/-- `th.min(surr0, surr1)` at buffer index `t`:
`surr0 = ratio * advantage`,
`surr1 = th.clamp(ratio, 1 - epsilon, 1 + epsilon) * advantage`. -/
def surrMinAtD (C : TrainCtx Obs P V) (oldLP : Nat → FVal) (adv : Nat → ℚ)
    (p : P) (t : Nat) : FVal :=
  FVal.fmin (FVal.mul (ratioAtD C oldLP p t) (.fin (adv t)))
    (FVal.mul (FVal.clamp (1 - C.H.epsilon) (1 + C.H.epsilon) (ratioAtD C oldLP p t))
      (.fin (adv t)))

/-- `value_net(obs)` at buffer index `t` under value parameters `v`. -/
def valueAtD (C : TrainCtx Obs P V) (v : V) (t : Nat) : ℚ :=
  C.valueFn v (C.Bf.obs t)

/-- `next_value = value_net(next_obs) * (1 - done)` at buffer index `t`
under value parameters `v` — used both in the TD-target phase and in the
per-minibatch recomputation (the same expression appears twice in the
source). -/
def nextValueAtD (C : TrainCtx Obs P V) (v : V) (t : Nat) : ℚ :=
  C.valueFn v (C.Bf.nextObs t) * (1 - boolToQ (C.Bf.done t))

/-- `td_target = reward + gamma * next_value` at buffer index `t` under
value parameters `v`. -/
def tdTargetAtD (C : TrainCtx Obs P V) (v : V) (t : Nat) : ℚ :=
  C.Bf.rew t + C.H.gamma * nextValueAtD C v t

/-- The body of the inner minibatch loop of `train` (before the two
gradient steps), lines `sgd_logit = ...` through `value_loss = ...`:
every tensor op is the map of its pointwise action over `sgd_idx_arr`. -/
def mbCompute (C : TrainCtx Obs P V) (oldLP : Nat → FVal) (adv : Nat → ℚ)
    (p : P) (v : V) (chunk : List Nat) : MBRec P V :=
  { idx := chunk
    pBefore := p
    vBefore := v
    oldLogProb := chunk.map oldLP
    logProb := chunk.map (logAtD C p)
    ratio := chunk.map (ratioAtD C oldLP p)
    surrMin := chunk.map (surrMinAtD C oldLP adv p)
    value := chunk.map (valueAtD C v)
    nextValue := chunk.map (nextValueAtD C v)
    tdTarget := chunk.map (tdTargetAtD C v)
    policyLoss := FVal.neg (FVal.fmean (chunk.map (surrMinAtD C oldLP adv p)))
    valueLoss := qmean (chunk.map (fun t => (valueAtD C v t - tdTargetAtD C v t) ^ 2)) }

/-- The minibatch loop of one epoch: computes each minibatch under the
current parameters, then applies the two independent gradient steps
before moving to the next minibatch.  Returns the final parameters and
the minibatch records in order. -/
def runMBs (C : TrainCtx Obs P V) (oldLP : Nat → FVal) (adv : Nat → ℚ) :
    P → V → List (List Nat) → P × V × List (MBRec P V)
  | p, v, [] => (p, v, [])
  | p, v, c :: cs =>
    let r := mbCompute C oldLP adv p v c
    let rest := runMBs C oldLP adv (C.stepP p r) (C.stepV v r) cs
    (rest.1, rest.2.1, r :: rest.2.2)

/-- The epoch loop `for _ in range(self.n_epoch)`: each epoch slices its
shuffled index array into minibatches and runs the minibatch loop,
parameters carrying over from epoch to epoch. -/
def runEpochs (C : TrainCtx Obs P V) (oldLP : Nat → FVal) (adv : Nat → ℚ) :
    P → V → List (List Nat) → P × V × List (MBRec P V)
  | p, v, [] => (p, v, [])
  | p, v, perm :: ps =>
    let e := runMBs C oldLP adv p v (minibatches C.H.batchSize perm)
    let rest := runEpochs C oldLP adv e.1 e.2.1 ps
    (rest.1, rest.2.1, e.2.2 ++ rest.2.2)

/-- Outcome of one `train` call: final parameters, the trace of all
minibatch computations in execution order, and the derived `td_delta`
and `advantages` arrays written into the buffer. -/
structure TrainResult (P V : Type) where
  finalP : P
  finalV : V
  trace : List (MBRec P V)
  tdDelta : List ℚ
  advantages : List ℚ
deriving DecidableEq

/-- Snapshot phase of `train` (`old_log_prob = th.log(th.gather(old_logit,
1, action_tensor)).detach()`): the log-probability of each stored action
under the entry policy parameters `p0`; `.detach()` means values only, no
gradient. -/
def snapshotLP (C : TrainCtx Obs P V) (p0 : P) : Nat → FVal :=
  logAtD C p0

/-- `td_delta = (td_target - value).detach()`, the array written into
`buffer_dict['td_delta']`, computed in the TD-target phase under the
entry value parameters `v0`. -/
def phase2TdDelta (C : TrainCtx Obs P V) (v0 : V) : List ℚ :=
  (List.range C.Bf.len).map (fun t => tdTargetAtD C v0 t - valueAtD C v0 t)

/-- The `advantages` array `compute_advantage` writes into the buffer
before the epoch loop. -/
def bufAdvantages (C : TrainCtx Obs P V) (v0 : V) : List ℚ :=
  computeAdvantage C.H.gamma C.H.lamda
    (((List.range C.Bf.len).map C.Bf.done).zip (phase2TdDelta C v0))

/-- Embeds `PPO.train(buffer_dict)`.  In source order: the
`old_log_prob` snapshot under the entry parameters `p0`, the TD-target
phase under the entry value parameters `v0`, `compute_advantage`, then
the epoch loop.  `perms` is the sequence of shuffled index arrays drawn
by `np.random.shuffle`, one per epoch. -/
def train (C : TrainCtx Obs P V) (p0 : P) (v0 : V) (perms : List (List Nat)) :
    TrainResult P V :=
  let r := runEpochs C (snapshotLP C p0)
    (fun t => (bufAdvantages C v0).getD t 0) p0 v0 perms
  ⟨r.1, r.2.1, r.2.2, phase2TdDelta C v0, bufAdvantages C v0⟩

end Train

/-! ### `PPO.take_action` -/

/-- Sum of `index * probability` over the entries, indices starting at `i`. -/
def weightedIdxSum (i : Nat) : List ℚ → ℚ
  | [] => 0
  | p :: rest => (i : ℚ) * p + weightedIdxSum (i + 1) rest

/-- The mean of `th.distributions.Categorical(probs)` modelled as the
expected value of the action index.  (The deployed torch library in fact
returns NaN for `Categorical.mean`; the expected-index reading is the most
charitable real-number semantics, and is already not the mode.) -/
def categoricalMean (probs : List ℚ) : ℚ := weightedIdxSum 0 probs

/-- Running argmax scan: `i` is the index of the next element, `(bi, bv)`
the best index/value so far; a strict improvement moves the best index,
so ties keep the first occurrence. -/
def argmaxAux (i bi : Nat) (bv : ℚ) : List ℚ → Nat
  | [] => bi
  | p :: rest =>
    if bv < p then argmaxAux (i + 1) i p rest else argmaxAux (i + 1) bi bv rest

/-- The mode of a categorical distribution: first index attaining the
maximum probability.  This is the spec's intended deterministic action
("selects the distribution's highest-probability (mode/mean) action"),
stated for comparison with what the code computes. -/
def argmaxIdx : List ℚ → Nat
  | [] => 0
  | p :: rest => argmaxAux 1 0 p rest

/-- Embeds `PPO.take_action`: builds the categorical distribution from the
policy network's probabilities, then takes `action_dist.mean` when
`deterministic` and `action_dist.sample()` otherwise (the sampled index
is an input: sampling uses torch's random source).  The result models
`action.item()`, a scalar that need not be an integer on the
deterministic branch. -/
def takeAction {Obs : Type} (policyNet : Obs → List ℚ) (o : Obs)
    (deterministic : Bool) (sampled : Nat) : ℚ :=
  if deterministic then categoricalMean (policyNet o) else (sampled : ℚ)

/-! ## Helper lemmas about `gaeRun` -/

/-- The advantage list has the buffer's length (`np.zeros_like(td_delta_arr)`
filled at every index of `range(td_delta_arr.shape[0])`). -/
theorem gaeRun_length (gamma lamda : ℚ) (l : List (Bool × ℚ)) (run : ℚ) :
    (gaeRun gamma lamda l run).1.length = l.length := by
  induction l with
  | nil => rfl
  | cons x rest ih => cases x; simp [gaeRun, ih]

/-- Splitting the reverse pass at a buffer position: the suffix is
processed first (it only sees the initial accumulator), and the prefix
continues from the accumulator the suffix hands over. -/
theorem gaeRun_append (gamma lamda : ℚ) (l1 l2 : List (Bool × ℚ)) (run : ℚ) :
    gaeRun gamma lamda (l1 ++ l2) run =
      ((gaeRun gamma lamda l1 (gaeRun gamma lamda l2 run).2).1 ++
        (gaeRun gamma lamda l2 run).1,
       (gaeRun gamma lamda l1 (gaeRun gamma lamda l2 run).2).2) := by
  induction l1 with
  | nil => simp [gaeRun]
  | cons x rest ih => cases x; simp [gaeRun, ih]

/-- A segment whose last transition is terminal ignores the accumulator
handed over from later indices: `if done[t]: advantage = 0` fires at its
last index before anything else of the segment is processed. -/
theorem gaeRun_reset (gamma lamda : ℚ) (l0 : List (Bool × ℚ)) (dK : ℚ) (r1 r2 : ℚ) :
    gaeRun gamma lamda (l0 ++ [(true, dK)]) r1 = gaeRun gamma lamda (l0 ++ [(true, dK)]) r2 := by
  induction l0 with
  | nil => simp [gaeRun]
  | cons x rest ih =>
    cases x
    simp only [List.cons_append, gaeRun, List.append_eq]
    rw [ih]

/-! ## Helper lemmas about `minibatches` -/

theorem minibatches_length (B : Nat) (perm : List Nat) :
    (minibatches B perm).length = (perm.length + B - 1) / B := by
  simp [minibatches]

theorem minibatches_get (B : Nat) (perm : List Nat) (i : Nat)
    (h : i < (minibatches B perm).length) :
    (minibatches B perm)[i] = (perm.drop (i * B)).take B := by
  simp [minibatches]

/-- Concatenating the first `K` contiguous `B`-sized slices of a list
recovers its first `K * B` elements. -/
theorem flatten_chunks (B : Nat) (l : List Nat) (K : Nat) :
    ((List.range K).map (fun i => (l.drop (i * B)).take B)).flatten = l.take (K * B) := by
  induction K with
  | zero => simp
  | succ k ih =>
    rw [List.range_succ, List.map_append, List.flatten_append]
    simp only [List.map_cons, List.map_nil, List.flatten_cons, List.flatten_nil,
      List.append_nil, ih]
    rw [Nat.succ_mul, List.take_add]

/-- `ceil(N/B) * B` covers all `N` indices. -/
theorem ceil_mul_ge (N B : Nat) (hN : 0 < N) (hB : 0 < B) :
    N ≤ ((N + B - 1) / B) * B := by
  have hK : (N + B - 1) / B = (N - 1) / B + 1 := by
    rw [show N + B - 1 = N - 1 + B by omega, Nat.add_div_right _ hB]
  have h1 := Nat.div_add_mod (N - 1) B
  have hr : (N - 1) % B < B := Nat.mod_lt _ hB
  rw [hK, Nat.add_mul, Nat.one_mul]
  have h2 : B * ((N - 1) / B) = (N - 1) / B * B := Nat.mul_comm _ _
  rw [h2] at h1
  set a := (N - 1) / B * B with ha
  set r := (N - 1) % B with hrd
  omega

/-- One epoch's minibatch slices, concatenated in order, give back the
whole shuffled index array. -/
theorem minibatches_flatten (B : Nat) (perm : List Nat) (hB : 0 < B) :
    (minibatches B perm).flatten = perm := by
  by_cases h0 : perm.length = 0
  · have hnil : perm = [] := List.length_eq_zero.mp h0
    subst hnil
    have : (0 + B - 1) / B = 0 := Nat.div_eq_of_lt (by omega)
    simp [minibatches, this]
  · rw [minibatches, flatten_chunks]
    exact List.take_of_length_le (ceil_mul_ge _ _ (Nat.pos_of_ne_zero h0) hB)

/-- Size bounds for the slice starting at `i * B`. -/
theorem chunk_arith (N B i : Nat) (hN : 0 < N) (hB : 0 < B) :
    (i + 1 < (N + B - 1) / B → B ≤ N - i * B) ∧
    (i < (N + B - 1) / B → 0 < N - i * B) := by
  have hK : (N + B - 1) / B = (N - 1) / B + 1 := by
    rw [show N + B - 1 = N - 1 + B by omega, Nat.add_div_right _ hB]
  have h2 : (N - 1) / B * B ≤ N - 1 := Nat.div_mul_le_self _ _
  constructor
  · intro hi
    rw [hK] at hi
    have hle : i + 1 ≤ (N - 1) / B := by omega
    have h3 : i * B + B ≤ N - 1 := by
      calc i * B + B = (i + 1) * B := by ring
        _ ≤ (N - 1) / B * B := Nat.mul_le_mul_right B hle
        _ ≤ N - 1 := h2
    have h4 : B + i * B ≤ N := by
      calc B + i * B = i * B + B := Nat.add_comm _ _
        _ ≤ N - 1 := h3
        _ ≤ N := Nat.sub_le N 1
    exact Nat.le_sub_of_add_le h4
  · intro hi
    rw [hK] at hi
    have hle : i ≤ (N - 1) / B := by omega
    have h3 : i * B ≤ N - 1 :=
      le_trans (Nat.mul_le_mul_right B hle) h2
    have h4 : i * B < N := lt_of_le_of_lt h3 (Nat.sub_lt hN Nat.one_pos)
    exact Nat.sub_pos_of_lt h4

/-! ## Helper lemmas for the `train` loop structure -/

theorem zipWith_map_same {α β γ δ : Type} (f : β → γ → δ) (g : α → β) (h : α → γ)
    (l : List α) :
    List.zipWith f (l.map g) (l.map h) = l.map (fun a => f (g a) (h a)) := by
  induction l with
  | nil => rfl
  | cons a l ih => simp [ih]

theorem zip_map_self {α β : Type} (g : α → β) (l : List α) :
    ∀ pr ∈ l.zip (l.map g), pr.2 = g pr.1 := by
  induction l with
  | nil => intro pr hpr; cases hpr
  | cons a l ih =>
    intro pr hpr
    rcases List.mem_cons.mp hpr with rfl | h2
    · rfl
    · exact ih pr h2

theorem FVal.add_nan_left (x : FVal) : FVal.add FVal.nan x = FVal.nan := by
  cases x <;> rfl

theorem FVal.add_nan_right (x : FVal) : FVal.add x FVal.nan = FVal.nan := by
  cases x <;> rfl

theorem FVal.mul_nan_left (x : FVal) : FVal.mul FVal.nan x = FVal.nan := by
  cases x <;> rfl

theorem FVal.fmin_nan_left (x : FVal) : FVal.fmin FVal.nan x = FVal.nan := by
  cases x <;> rfl

/-- A NaN entry poisons a tensor sum. -/
theorem fsum_nan (l : List FVal) (h : FVal.nan ∈ l) : FVal.fsum l = FVal.nan := by
  induction l with
  | nil => cases h
  | cons x l ih =>
    rcases List.mem_cons.mp h with rfl | h2
    · exact FVal.add_nan_left _
    · show FVal.add x (FVal.fsum l) = FVal.nan
      rw [ih h2]
      exact FVal.add_nan_right x

/-- A NaN entry poisons `th.mean`. -/
theorem fmean_nan (l : List FVal) (h : FVal.nan ∈ l) : FVal.fmean l = FVal.nan := by
  cases l with
  | nil => cases h
  | cons x xs =>
    show FVal.divNat (FVal.fsum (x :: xs)) (x :: xs).length = FVal.nan
    rw [fsum_nan _ h]
    rfl

section TrainLemmas

variable {Obs P V : Type}

/-- Every record the minibatch loop emits is `mbCompute` applied to the
parameters and indices it itself stores. -/
theorem runMBs_rec_shape (C : TrainCtx Obs P V) (oldLP : Nat → FVal) (adv : Nat → ℚ) :
    ∀ (chunks : List (List Nat)) (p : P) (v : V),
      ∀ r ∈ (runMBs C oldLP adv p v chunks).2.2,
        r = mbCompute C oldLP adv r.pBefore r.vBefore r.idx := by
  intro chunks
  induction chunks with
  | nil => intro p v r hr; simp [runMBs] at hr
  | cons c cs ih =>
    intro p v r hr
    simp only [runMBs, List.mem_cons] at hr
    rcases hr with rfl | hr
    · rfl
    · exact ih _ _ r hr

/-- Every record the epoch loop emits is `mbCompute` applied to the
parameters and indices it itself stores. -/
theorem runEpochs_rec_shape (C : TrainCtx Obs P V) (oldLP : Nat → FVal) (adv : Nat → ℚ) :
    ∀ (ps : List (List Nat)) (p : P) (v : V),
      ∀ r ∈ (runEpochs C oldLP adv p v ps).2.2,
        r = mbCompute C oldLP adv r.pBefore r.vBefore r.idx := by
  intro ps
  induction ps with
  | nil => intro p v r hr; simp [runEpochs] at hr
  | cons perm ps ih =>
    intro p v r hr
    simp only [runEpochs, List.mem_append] at hr
    rcases hr with hr | hr
    · exact runMBs_rec_shape C oldLP adv _ _ _ r hr
    · exact ih _ _ r hr

/-- The value parameters the minibatch loop returns are the fold of its
own gradient steps over the emitted records. -/
theorem runMBs_finalV (C : TrainCtx Obs P V) (oldLP : Nat → FVal) (adv : Nat → ℚ) :
    ∀ (chunks : List (List Nat)) (p : P) (v : V),
      (runMBs C oldLP adv p v chunks).2.1 =
        (runMBs C oldLP adv p v chunks).2.2.foldl C.stepV v := by
  intro chunks
  induction chunks with
  | nil => intro p v; rfl
  | cons c cs ih =>
    intro p v
    simp only [runMBs, List.foldl_cons]
    exact ih _ _

/-- Within one epoch, the value parameters in effect at the `k`-th
minibatch are the entry parameters advanced by the gradient steps of the
first `k` records. -/
theorem runMBs_vBefore (C : TrainCtx Obs P V) (oldLP : Nat → FVal) (adv : Nat → ℚ) :
    ∀ (chunks : List (List Nat)) (p : P) (v : V) (k : Nat)
      (hk : k < (runMBs C oldLP adv p v chunks).2.2.length),
      ((runMBs C oldLP adv p v chunks).2.2)[k].vBefore =
        ((runMBs C oldLP adv p v chunks).2.2.take k).foldl C.stepV v := by
  intro chunks
  induction chunks with
  | nil => intro p v k hk; simp [runMBs] at hk
  | cons c cs ih =>
    intro p v k hk
    simp only [runMBs] at hk ⊢
    cases k with
    | zero =>
      simp only [List.getElem_cons_zero, List.take_zero, List.foldl_nil]
      rfl
    | succ k2 =>
      rw [List.getElem_cons_succ, List.take_succ_cons, List.foldl_cons]
      exact ih _ _ k2 (by simpa using hk)

/-- Across the whole epoch loop, the value parameters in effect at the
`k`-th minibatch of the run are the entry parameters advanced by the
gradient steps of the first `k` records of the trace. -/
theorem runEpochs_vBefore (C : TrainCtx Obs P V) (oldLP : Nat → FVal) (adv : Nat → ℚ) :
    ∀ (ps : List (List Nat)) (p : P) (v : V) (k : Nat)
      (hk : k < (runEpochs C oldLP adv p v ps).2.2.length),
      ((runEpochs C oldLP adv p v ps).2.2)[k].vBefore =
        ((runEpochs C oldLP adv p v ps).2.2.take k).foldl C.stepV v := by
  intro ps
  induction ps with
  | nil => intro p v k hk; simp [runEpochs] at hk
  | cons perm ps ih =>
    intro p v k hk
    simp only [runEpochs] at hk ⊢
    by_cases hsplit :
        k < (runMBs C oldLP adv p v (minibatches C.H.batchSize perm)).2.2.length
    · rw [List.getElem_append_left hsplit,
        List.take_append_of_le_length (Nat.le_of_lt hsplit)]
      exact runMBs_vBefore C oldLP adv _ p v k hsplit
    · push_neg at hsplit
      rw [List.getElem_append_right hsplit]
      have hk2 : k =
          (runMBs C oldLP adv p v (minibatches C.H.batchSize perm)).2.2.length +
            (k - (runMBs C oldLP adv p v (minibatches C.H.batchSize perm)).2.2.length) := by
        omega
      conv_rhs => rw [hk2, List.take_append]
      rw [List.foldl_append,
        ← runMBs_finalV C oldLP adv (minibatches C.H.batchSize perm) p v]
      have hk3 : k -
          (runMBs C oldLP adv p v (minibatches C.H.batchSize perm)).2.2.length <
          (runEpochs C oldLP adv
            (runMBs C oldLP adv p v (minibatches C.H.batchSize perm)).1
            (runMBs C oldLP adv p v (minibatches C.H.batchSize perm)).2.1 ps).2.2.length := by
        rw [List.length_append] at hk
        omega
      exact ih _ _ _ hk3

/-- `ratio` is elementwise `exp(log_prob - old_log_prob)` of the stored
`logProb` and `oldLogProb` tensors. -/
theorem mbCompute_ratio_zip (C : TrainCtx Obs P V) (oldLP : Nat → FVal) (adv : Nat → ℚ)
    (p : P) (v : V) (chunk : List Nat) :
    (mbCompute C oldLP adv p v chunk).ratio =
      List.zipWith (fun lp olp => FVal.fexp C.expFn (FVal.sub lp olp))
        (mbCompute C oldLP adv p v chunk).logProb
        (mbCompute C oldLP adv p v chunk).oldLogProb := by
  show chunk.map (ratioAtD C oldLP p) =
    List.zipWith (fun lp olp => FVal.fexp C.expFn (FVal.sub lp olp))
      (chunk.map (logAtD C p)) (chunk.map oldLP)
  rw [zipWith_map_same]
  rfl

/-- `value_loss = F.mse_loss(value, td_target)` over the stored `value`
and `tdTarget` tensors. -/
theorem mbCompute_valueLoss_zip (C : TrainCtx Obs P V) (oldLP : Nat → FVal) (adv : Nat → ℚ)
    (p : P) (v : V) (chunk : List Nat) :
    (mbCompute C oldLP adv p v chunk).valueLoss =
      qmean (List.zipWith (fun a b => (a - b) ^ 2)
        (mbCompute C oldLP adv p v chunk).value
        (mbCompute C oldLP adv p v chunk).tdTarget) := by
  show qmean (chunk.map (fun t => (valueAtD C v t - tdTargetAtD C v t) ^ 2)) =
    qmean (List.zipWith (fun a b => (a - b) ^ 2)
      (chunk.map (valueAtD C v)) (chunk.map (tdTargetAtD C v)))
  rw [zipWith_map_same]

/-- A NaN `ratio` entry propagates into `policy_loss` unchecked. -/
theorem mbCompute_policyLoss_nan (C : TrainCtx Obs P V) (oldLP : Nat → FVal)
    (adv : Nat → ℚ) (p : P) (v : V) (chunk : List Nat)
    (hnan : FVal.nan ∈ (mbCompute C oldLP adv p v chunk).ratio) :
    (mbCompute C oldLP adv p v chunk).policyLoss = FVal.nan := by
  have h1 : FVal.nan ∈ chunk.map (ratioAtD C oldLP p) := hnan
  rcases List.mem_map.mp h1 with ⟨t, ht, hrt⟩
  show FVal.neg (FVal.fmean (chunk.map (surrMinAtD C oldLP adv p))) = FVal.nan
  rw [fmean_nan]
  · rfl
  · refine List.mem_map.mpr ⟨t, ht, ?_⟩
    show surrMinAtD C oldLP adv p t = FVal.nan
    rw [surrMinAtD, hrt, FVal.mul_nan_left]
    exact FVal.fmin_nan_left _

theorem minibatches_nil (B : Nat) (hB : 0 < B) : minibatches B [] = [] := by
  have h0 : (B - 1) / B = 0 := Nat.div_eq_of_lt (by omega)
  simp [minibatches, h0]

/-- With an empty buffer every epoch's index array is empty, so the
epoch loop runs zero minibatches and leaves both parameter sets
untouched. -/
theorem runEpochs_nil_perms (C : TrainCtx Obs P V) (oldLP : Nat → FVal) (adv : Nat → ℚ)
    (hB : 0 < C.H.batchSize) :
    ∀ (ps : List (List Nat)) (p : P) (v : V), (∀ q ∈ ps, q = []) →
      runEpochs C oldLP adv p v ps = (p, v, []) := by
  intro ps
  induction ps with
  | nil => intro p v _; rfl
  | cons perm ps ih =>
    intro p v hq
    have h1 : perm = [] := hq perm (List.mem_cons_self _ _)
    subst h1
    have h2 := ih p v (fun q hq2 => hq q (List.mem_cons_of_mem _ hq2))
    simp only [runEpochs, minibatches_nil _ hB, runMBs, h2, List.nil_append]

end TrainLemmas

/-! ## Claims C1, C2, C3 -/

/-- Claim C1, counterexample: with `gamma = 1`, `lamda = 1/2` (so
`gl = 1/2`), `done = [False, False, True]` and `td_delta = [0, 0, 1]`,
the code produces `advantages = [1/2, 1/2, 1/2]`, not the claimed
`[gl^3*1, gl^2*1, gl*1] = [1/8, 1/4, 1/2]`: the loop adds
`gamma*lamda*td_delta[t]` to the running value without discounting the
accumulated tail again, so no `gl^2`/`gl^3` powers arise. -/
theorem C1_counterexample :
    computeAdvantage 1 (1/2) [(false, 0), (false, 0), (true, 1)] ≠
      [(1/2)*0 + (1/2)^2*0 + (1/2)^3*1, (1/2)*0 + (1/2)^2*1, (1/2)*1] := by
  norm_num [computeAdvantage, gaeRun]

/-- Claim C1, amended: for `done = [False, False, True]` and
`td_delta = [d0, d1, d2]`, `compute_advantage` yields
`advantage[2] = gl*d2`, `advantage[1] = gl*d1 + gl*d2`,
`advantage[0] = gl*d0 + gl*d1 + gl*d2` with `gl = gamma*lamda` — the
backward recursion `running := running + gamma*lamda*td_delta[t]`
started from `running = 0`, exactly as the second half of the claim
states it. -/
theorem C1_gae_recursion (gamma lamda d0 d1 d2 : ℚ) :
    computeAdvantage gamma lamda [(false, d0), (false, d1), (true, d2)] =
      [gamma * lamda * d0 + gamma * lamda * d1 + gamma * lamda * d2,
       gamma * lamda * d1 + gamma * lamda * d2,
       gamma * lamda * d2] := by
  simp only [computeAdvantage, gaeRun, if_true, if_false, Bool.false_eq_true]
  norm_num
  ring_nf
  simp [add_comm, add_left_comm]

/-- Claim C2: a terminal flag at index `k` (the end of the first episode
segment) resets the accumulator before index `k` is processed, so the
advantages of a buffer made of an episode `l0 ++ [(True, dK)]` followed
by any continuation `l2` are exactly the advantages of the episode
computed alone, followed by the advantages of the continuation computed
alone — no value leaks across the boundary in either direction. -/
theorem C2_episode_reset (gamma lamda : ℚ) (l0 : List (Bool × ℚ)) (dK : ℚ)
    (l2 : List (Bool × ℚ)) :
    computeAdvantage gamma lamda ((l0 ++ [(true, dK)]) ++ l2) =
      computeAdvantage gamma lamda (l0 ++ [(true, dK)]) ++
        computeAdvantage gamma lamda l2 := by
  unfold computeAdvantage
  rw [gaeRun_append]
  rw [gaeRun_reset gamma lamda l0 dK (gaeRun gamma lamda l2 0).2 0]

/-- Claim C3: in every epoch of `train`, the minibatch slices of a
shuffled index permutation of a buffer of size `N > 0` with
`batch_size = B > 0` cover every index `0 .. N-1` exactly once (their
concatenation is a permutation of `range N`), number exactly
`ceil(N/B) = (N + B - 1) / B`, and every slice except possibly the last
has size exactly `B` while all slices are nonempty of size at most `B`. -/
theorem C3_minibatch_partition (N B : Nat) (perm : List Nat)
    (hN : 0 < N) (hB : 0 < B) (hperm : perm.Perm (List.range N)) :
    (minibatches B perm).flatten.Perm (List.range N) ∧
    (minibatches B perm).length = (N + B - 1) / B ∧
    (∀ i, i + 1 < (minibatches B perm).length →
      ∀ h : i < (minibatches B perm).length,
        ((minibatches B perm)[i]).length = B) ∧
    (∀ i, ∀ h : i < (minibatches B perm).length,
      0 < ((minibatches B perm)[i]).length ∧
        ((minibatches B perm)[i]).length ≤ B) := by
  have hlen : perm.length = N := by rw [hperm.length_eq, List.length_range]
  have hKlen : (minibatches B perm).length = (N + B - 1) / B := by
    rw [minibatches_length, hlen]
  refine ⟨?_, hKlen, ?_, ?_⟩
  · rw [minibatches_flatten B perm hB]
    exact hperm
  · intro i hi1 h
    rw [minibatches_get B perm i h, List.length_take, List.length_drop, hlen]
    have hge : B ≤ N - i * B :=
      (chunk_arith N B i hN hB).1 (by rw [hKlen] at hi1; exact hi1)
    exact min_eq_left hge
  · intro i h
    rw [minibatches_get B perm i h, List.length_take, List.length_drop, hlen]
    have hpos : 0 < N - i * B :=
      (chunk_arith N B i hN hB).2 (by rw [hKlen] at h; exact h)
    exact ⟨lt_min hB hpos, min_le_left _ _⟩

/-- Claim C4, counterexample: constructing a `PPO` with
`batch_size = -1` succeeds — `__init__` is a sequence of attribute
assignments with no validation, so a non-positive `batch_size` is
accepted and stored, not rejected. -/
theorem C4_counterexample :
    ppoInit (99/100) (-1) 64 (19/20) (1/5) 10 ≠ none ∧
    ppoInit (99/100) (-1) 64 (19/20) (1/5) 10 =
      some ⟨-1, 64, 99/100, 19/20, 1/5, 10⟩ :=
  ⟨fun h => Option.noConfusion h, rfl⟩

/-- Claim C4, amended: `PPO.__init__` performs no validation of
`batch_size` (nor of any other option): every value, the non-positive
ones included, is accepted at construction time and stored unchanged.
(An invalid `batch_size` only manifests later, inside `train`'s
minibatch loop.) -/
theorem C4_no_validation (gamma lamda epsilon : ℚ) (b : Int)
    (latent n : Nat) (hb : b ≤ 0) :
    ppoInit gamma b latent lamda epsilon n =
      some ⟨b, latent, gamma, lamda, epsilon, n⟩ := rfl

/-- Claim C4, witness: `batch_size = 0` is accepted. -/
theorem C4_witness :
    ppoInit (99/100) 0 64 (19/20) (1/5) 10 =
      some ⟨0, 64, 99/100, 19/20, 1/5, 10⟩ :=
  C4_no_validation (99/100) (19/20) (1/5) 0 64 10 (by decide)

/-- Claim C5: for the categorical distribution `[9/10, 1/10]`, the
deterministic branch of `take_action` returns `dist.mean = 1/10` (under
the charitable expected-index semantics; real torch returns NaN), while
the highest-probability action is index `0` — the deterministic action
is not the mode, confirming the latent bug the spec flags. -/
theorem C5_mean_not_mode :
    takeAction (fun _ : Unit => [9/10, 1/10]) () true 0 = 1/10 ∧
    argmaxIdx [9/10, 1/10] = 0 ∧
    takeAction (fun _ : Unit => [9/10, 1/10]) () true 0 ≠
      ((argmaxIdx [9/10, 1/10] : ℚ)) := by
  refine ⟨?_, ?_, ?_⟩ <;>
    norm_num [takeAction, categoricalMean, weightedIdxSum, argmaxIdx, argmaxAux]

/-- Claim C10: `compute_advantage` writes only the `advantages` key (all
other buffer entries are returned unchanged), the written array has the
length of `td_delta`, its output depends only on the `dones` and
`td_delta` entries (any buffer agreeing on those two keys gets the same
advantages), and the operation is idempotent. -/
theorem C10_compute_advantage_frame {Obs : Type} (gamma lamda : ℚ)
    (b b2 : Buffer Obs)
    (hlen : b.dones.length = b.td_delta.length)
    (hd : b2.dones = b.dones) (htd : b2.td_delta = b.td_delta) :
    (computeAdvantageBuf gamma lamda b).observations = b.observations ∧
    (computeAdvantageBuf gamma lamda b).actions = b.actions ∧
    (computeAdvantageBuf gamma lamda b).next_observations = b.next_observations ∧
    (computeAdvantageBuf gamma lamda b).rewards = b.rewards ∧
    (computeAdvantageBuf gamma lamda b).dones = b.dones ∧
    (computeAdvantageBuf gamma lamda b).td_delta = b.td_delta ∧
    (computeAdvantageBuf gamma lamda b).advantages.length = b.td_delta.length ∧
    (computeAdvantageBuf gamma lamda b2).advantages =
      (computeAdvantageBuf gamma lamda b).advantages ∧
    computeAdvantageBuf gamma lamda (computeAdvantageBuf gamma lamda b) =
      computeAdvantageBuf gamma lamda b := by
  refine ⟨rfl, rfl, rfl, rfl, rfl, rfl, ?_, ?_, rfl⟩
  · simp only [computeAdvantageBuf, computeAdvantage]
    rw [gaeRun_length, List.length_zip, hlen, min_self]
  · simp only [computeAdvantageBuf, hd, htd]

/-- Claim C10, witness: a concrete two-step buffer and a second buffer
agreeing with it only on `dones` and `td_delta`. -/
theorem C10_witness :
    (computeAdvantageBuf 1 1 (⟨[()], [0], [()], [1], [false, true], [2, 3], [9]⟩ : Buffer Unit)).observations = [()] ∧
    (computeAdvantageBuf 1 1 (⟨[()], [0], [()], [1], [false, true], [2, 3], [9]⟩ : Buffer Unit)).actions = [0] ∧
    (computeAdvantageBuf 1 1 (⟨[()], [0], [()], [1], [false, true], [2, 3], [9]⟩ : Buffer Unit)).next_observations = [()] ∧
    (computeAdvantageBuf 1 1 (⟨[()], [0], [()], [1], [false, true], [2, 3], [9]⟩ : Buffer Unit)).rewards = [1] ∧
    (computeAdvantageBuf 1 1 (⟨[()], [0], [()], [1], [false, true], [2, 3], [9]⟩ : Buffer Unit)).dones = [false, true] ∧
    (computeAdvantageBuf 1 1 (⟨[()], [0], [()], [1], [false, true], [2, 3], [9]⟩ : Buffer Unit)).td_delta = [2, 3] ∧
    (computeAdvantageBuf 1 1 (⟨[()], [0], [()], [1], [false, true], [2, 3], [9]⟩ : Buffer Unit)).advantages.length = ([2, 3] : List ℚ).length ∧
    (computeAdvantageBuf 1 1 (⟨[], [], [], [], [false, true], [2, 3], []⟩ : Buffer Unit)).advantages =
      (computeAdvantageBuf 1 1 (⟨[()], [0], [()], [1], [false, true], [2, 3], [9]⟩ : Buffer Unit)).advantages ∧
    computeAdvantageBuf 1 1 (computeAdvantageBuf 1 1 (⟨[()], [0], [()], [1], [false, true], [2, 3], [9]⟩ : Buffer Unit)) =
      computeAdvantageBuf 1 1 (⟨[()], [0], [()], [1], [false, true], [2, 3], [9]⟩ : Buffer Unit) :=
  C10_compute_advantage_frame 1 1
    (⟨[()], [0], [()], [1], [false, true], [2, 3], [9]⟩ : Buffer Unit)
    (⟨[], [], [], [], [false, true], [2, 3], []⟩ : Buffer Unit)
    rfl rfl rfl

/-- Claim C3, witness: buffer of size 5, batch size 2, shuffled order
`[4,0,3,1,2]`: three minibatches `[4,0] [3,1] [2]`. -/
theorem C3_witness :
    (minibatches 2 [4,0,3,1,2]).flatten.Perm (List.range 5) ∧
    (minibatches 2 [4,0,3,1,2]).length = (5 + 2 - 1) / 2 ∧
    (∀ i, i + 1 < (minibatches 2 [4,0,3,1,2]).length →
      ∀ h : i < (minibatches 2 [4,0,3,1,2]).length,
        ((minibatches 2 [4,0,3,1,2])[i]).length = 2) ∧
    (∀ i, ∀ h : i < (minibatches 2 [4,0,3,1,2]).length,
      0 < ((minibatches 2 [4,0,3,1,2])[i]).length ∧
        ((minibatches 2 [4,0,3,1,2])[i]).length ≤ 2) :=
  C3_minibatch_partition 5 2 [4,0,3,1,2] (by decide) (by decide) (by decide)

/-! ## Claims C6, C7, C8, C9 -/

/-- Claim C6: every minibatch of every epoch of one `train` call uses as
`sgd_old_log_prob` exactly the snapshot `snapshotLP C p0` computed from
the entry (pre-update) policy parameters `p0` — never recomputed under
the evolving parameters — and `ratio` is `exp(log_prob - old_log_prob)`
against precisely that frozen snapshot. -/
theorem C6_old_log_prob_frozen {Obs P V : Type} (C : TrainCtx Obs P V)
    (p0 : P) (v0 : V) (perms : List (List Nat)) (mb : MBRec P V)
    (hmb : mb ∈ (train C p0 v0 perms).trace) :
    mb.oldLogProb = mb.idx.map (snapshotLP C p0) ∧
    mb.ratio = List.zipWith (fun lp olp => FVal.fexp C.expFn (FVal.sub lp olp))
      mb.logProb mb.oldLogProb := by
  have hshape := runEpochs_rec_shape C (snapshotLP C p0)
    (fun t => (bufAdvantages C v0).getD t 0) perms p0 v0 mb hmb
  refine ⟨?_, ?_⟩
  · conv_lhs => rw [hshape]
    rfl
  · conv_lhs => rw [hshape]
    conv_rhs => rw [hshape]
    exact mbCompute_ratio_zip C (snapshotLP C p0)
      (fun t => (bufAdvantages C v0).getD t 0) mb.pBefore mb.vBefore mb.idx

/-- Concrete two-step context used to instantiate the `train` theorems:
policy parameters are a `Nat` counter, value parameters a rational that
each value-gradient step increments by one. -/
def wCtx : TrainCtx Unit Nat ℚ :=
  { H := { gamma := 1, lamda := 1, epsilon := 1/5, batchSize := 1 }
    policyProb := fun _ _ _ => 1
    valueFn := fun v _ => v
    logFn := fun _ => 0
    expFn := fun q => q
    stepP := fun p _ => p + 1
    stepV := fun v _ => v + 1
    Bf := { len := 2, obs := fun _ => (), nextObs := fun _ => (), act := fun _ => 0,
            rew := fun _ => 1, done := fun _ => false } }

theorem wTraceNe : (train wCtx 0 0 [[0, 1]]).trace ≠ [] := by decide

/-- Claim C6, witness: the first minibatch of a concrete one-epoch run. -/
theorem C6_witness :
    ((train wCtx 0 0 [[0, 1]]).trace.head wTraceNe).oldLogProb =
      ((train wCtx 0 0 [[0, 1]]).trace.head wTraceNe).idx.map (snapshotLP wCtx 0) ∧
    ((train wCtx 0 0 [[0, 1]]).trace.head wTraceNe).ratio =
      List.zipWith (fun lp olp => FVal.fexp wCtx.expFn (FVal.sub lp olp))
        ((train wCtx 0 0 [[0, 1]]).trace.head wTraceNe).logProb
        ((train wCtx 0 0 [[0, 1]]).trace.head wTraceNe).oldLogProb :=
  C6_old_log_prob_frozen wCtx 0 0 [[0, 1]] _ (List.head_mem wTraceNe)

/-- Claim C7: in every minibatch of every epoch, the value parameters in
effect are the entry parameters advanced by all preceding gradient steps
of the same `train` call, and `value`, `next_value`, `td_target` are
recomputed from those current parameters (so `td_target` is not the
frozen TD-target-phase array); `value_loss` is the mean squared error of
exactly these recomputed tensors, and `next_value` is zeroed at terminal
steps through the `* (1 - done)` factor. -/
theorem C7_td_target_recomputed {Obs P V : Type} (C : TrainCtx Obs P V)
    (p0 : P) (v0 : V) (perms : List (List Nat)) (k : Nat)
    (hk : k < (train C p0 v0 perms).trace.length) :
    ((train C p0 v0 perms).trace)[k].vBefore =
      (((train C p0 v0 perms).trace).take k).foldl C.stepV v0 ∧
    ((train C p0 v0 perms).trace)[k].value =
      ((train C p0 v0 perms).trace)[k].idx.map
        (valueAtD C (((train C p0 v0 perms).trace)[k].vBefore)) ∧
    ((train C p0 v0 perms).trace)[k].nextValue =
      ((train C p0 v0 perms).trace)[k].idx.map
        (nextValueAtD C (((train C p0 v0 perms).trace)[k].vBefore)) ∧
    ((train C p0 v0 perms).trace)[k].tdTarget =
      ((train C p0 v0 perms).trace)[k].idx.map
        (tdTargetAtD C (((train C p0 v0 perms).trace)[k].vBefore)) ∧
    ((train C p0 v0 perms).trace)[k].valueLoss =
      qmean (List.zipWith (fun a b => (a - b) ^ 2)
        (((train C p0 v0 perms).trace)[k].value)
        (((train C p0 v0 perms).trace)[k].tdTarget)) ∧
    ∀ pr ∈ ((train C p0 v0 perms).trace)[k].idx.zip
        (((train C p0 v0 perms).trace)[k].nextValue),
      C.Bf.done pr.1 = true → pr.2 = 0 := by
  have hmem : ((train C p0 v0 perms).trace)[k] ∈ (train C p0 v0 perms).trace :=
    List.getElem_mem _
  have hshape := runEpochs_rec_shape C (snapshotLP C p0)
    (fun t => (bufAdvantages C v0).getD t 0) perms p0 v0 _ hmem
  have hnv : ((train C p0 v0 perms).trace)[k].nextValue =
      ((train C p0 v0 perms).trace)[k].idx.map
        (nextValueAtD C (((train C p0 v0 perms).trace)[k].vBefore)) := by
    conv_lhs => rw [hshape]
    rfl
  refine ⟨?_, ?_, hnv, ?_, ?_, ?_⟩
  · exact runEpochs_vBefore C (snapshotLP C p0)
      (fun t => (bufAdvantages C v0).getD t 0) perms p0 v0 k hk
  · conv_lhs => rw [hshape]
    rfl
  · conv_lhs => rw [hshape]
    rfl
  · conv_lhs => rw [hshape]
    conv_rhs => rw [hshape]
    exact mbCompute_valueLoss_zip C (snapshotLP C p0)
      (fun t => (bufAdvantages C v0).getD t 0) _ _ _
  · intro pr hpr hdone
    rw [hnv] at hpr
    have h4 := zip_map_self
      (nextValueAtD C (((train C p0 v0 perms).trace)[k].vBefore)) _ pr hpr
    rw [h4]
    simp [nextValueAtD, hdone, boolToQ]

theorem wTraceLen : 1 < (train wCtx 0 0 [[0, 1]]).trace.length := by decide

/-- Claim C7, witness: the second minibatch of a concrete one-epoch run
over a two-step buffer with batch size 1; its value parameters are the
entry parameters advanced by the first minibatch's gradient step, and
(extra evidence) the recomputed `td_target` arrays `[[1], [2]]` differ
from the frozen TD-target-phase values `[1, 1]`. -/
theorem C7_witness :
    (((train wCtx 0 0 [[0, 1]]).trace.get ⟨1, wTraceLen⟩).vBefore =
      (((train wCtx 0 0 [[0, 1]]).trace).take 1).foldl wCtx.stepV 0 ∧
    ((train wCtx 0 0 [[0, 1]]).trace.get ⟨1, wTraceLen⟩).value =
      ((train wCtx 0 0 [[0, 1]]).trace.get ⟨1, wTraceLen⟩).idx.map
        (valueAtD wCtx (((train wCtx 0 0 [[0, 1]]).trace.get ⟨1, wTraceLen⟩).vBefore)) ∧
    ((train wCtx 0 0 [[0, 1]]).trace.get ⟨1, wTraceLen⟩).nextValue =
      ((train wCtx 0 0 [[0, 1]]).trace.get ⟨1, wTraceLen⟩).idx.map
        (nextValueAtD wCtx (((train wCtx 0 0 [[0, 1]]).trace.get ⟨1, wTraceLen⟩).vBefore)) ∧
    ((train wCtx 0 0 [[0, 1]]).trace.get ⟨1, wTraceLen⟩).tdTarget =
      ((train wCtx 0 0 [[0, 1]]).trace.get ⟨1, wTraceLen⟩).idx.map
        (tdTargetAtD wCtx (((train wCtx 0 0 [[0, 1]]).trace.get ⟨1, wTraceLen⟩).vBefore)) ∧
    ((train wCtx 0 0 [[0, 1]]).trace.get ⟨1, wTraceLen⟩).valueLoss =
      qmean (List.zipWith (fun a b => (a - b) ^ 2)
        (((train wCtx 0 0 [[0, 1]]).trace.get ⟨1, wTraceLen⟩).value)
        (((train wCtx 0 0 [[0, 1]]).trace.get ⟨1, wTraceLen⟩).tdTarget)) ∧
    ∀ pr ∈ ((train wCtx 0 0 [[0, 1]]).trace.get ⟨1, wTraceLen⟩).idx.zip
        (((train wCtx 0 0 [[0, 1]]).trace.get ⟨1, wTraceLen⟩).nextValue),
      wCtx.Bf.done pr.1 = true → pr.2 = 0) ∧
    (train wCtx 0 0 [[0, 1]]).trace.map MBRec.tdTarget = [[1], [2]] ∧
    (List.range 2).map (tdTargetAtD wCtx (0 : ℚ)) = [1, 1] :=
  ⟨C7_td_target_recomputed wCtx 0 0 [[0, 1]] 1 wTraceLen,
   by norm_num [train, runEpochs, runMBs, mbCompute, minibatches, wCtx,
     tdTargetAtD, nextValueAtD, boolToQ, List.range_succ],
   by norm_num [wCtx, tdTargetAtD, nextValueAtD, boolToQ, List.range_succ]⟩

/-- Concrete context in which the stored action has probability zero
under the policy, so its stored and recomputed log-probabilities are
both `-inf` and the importance ratio is `exp(-inf - (-inf)) = NaN`. -/
def zCtx : TrainCtx Unit Nat ℚ :=
  { H := { gamma := 1, lamda := 1, epsilon := 1/5, batchSize := 1 }
    policyProb := fun _ _ _ => 0
    valueFn := fun v _ => v
    logFn := fun _ => 0
    expFn := fun q => q
    stepP := fun p _ => p + 1
    stepV := fun v _ => v
    Bf := { len := 1, obs := fun _ => (), nextObs := fun _ => (), act := fun _ => 0,
            rew := fun _ => 1, done := fun _ => false } }

/-- Claim C8, counterexample: in a concrete run whose policy assigns
probability zero to the stored action, the ratio is NaN (non-finite),
yet `train` raises nothing and performs the gradient step anyway: the
NaN flows into `policy_loss` and the policy parameters are still updated
(`finalP = 1` counts one completed step).  Nothing in `train` surfaces a
numerical error. -/
theorem C8_counterexample :
    (train zCtx 0 0 [[0]]).trace.map MBRec.ratio = [[FVal.nan]] ∧
    (train zCtx 0 0 [[0]]).trace.map MBRec.policyLoss = [FVal.nan] ∧
    (train zCtx 0 0 [[0]]).finalP = 1 := by
  refine ⟨?_, ?_, ?_⟩ <;> decide

/-- Claim C8, amended: `train` contains no finiteness check: whenever a
minibatch's `ratio` tensor contains NaN, the NaN propagates silently
into that minibatch's `policy_loss` (and the gradient step is applied
unconditionally); no error is surfaced. -/
theorem C8_nonfinite_ratio_propagates {Obs P V : Type} (C : TrainCtx Obs P V)
    (p0 : P) (v0 : V) (perms : List (List Nat)) (mb : MBRec P V)
    (hmb : mb ∈ (train C p0 v0 perms).trace)
    (hnan : FVal.nan ∈ mb.ratio) :
    mb.policyLoss = FVal.nan := by
  have hshape := runEpochs_rec_shape C (snapshotLP C p0)
    (fun t => (bufAdvantages C v0).getD t 0) perms p0 v0 mb hmb
  rw [hshape] at hnan
  rw [hshape]
  exact mbCompute_policyLoss_nan C _ _ _ _ _ hnan

theorem zTraceNe : (train zCtx 0 0 [[0]]).trace ≠ [] := by decide

/-- Claim C8, witness: the NaN-ratio minibatch of the concrete run. -/
theorem C8_witness :
    ((train zCtx 0 0 [[0]]).trace.head zTraceNe).policyLoss = FVal.nan :=
  C8_nonfinite_ratio_propagates zCtx 0 0 [[0]] _ (List.head_mem zTraceNe) (by decide)

/-- Claim C9: on a buffer with zero transitions (so every epoch's
shuffled index array is empty), `train` executes zero minibatches and
zero gradient steps (empty trace, both parameter sets returned
unchanged), writes empty `td_delta` and `advantages` arrays, and
`compute_advantage` on the empty buffer returns the empty advantage list
(no division occurs anywhere); the embedding is total, so no exception
is raised. -/
theorem C9_empty_buffer {Obs P V : Type} (C : TrainCtx Obs P V) (p0 : P) (v0 : V)
    (perms : List (List Nat)) (hlen : C.Bf.len = 0) (hB : 0 < C.H.batchSize)
    (hperms : ∀ q ∈ perms, q = []) :
    (train C p0 v0 perms).trace = [] ∧
    (train C p0 v0 perms).finalP = p0 ∧
    (train C p0 v0 perms).finalV = v0 ∧
    (train C p0 v0 perms).tdDelta = [] ∧
    (train C p0 v0 perms).advantages = [] ∧
    computeAdvantage C.H.gamma C.H.lamda [] = [] := by
  have h2 := runEpochs_nil_perms C (snapshotLP C p0)
    (fun t => (bufAdvantages C v0).getD t 0) hB perms p0 v0 hperms
  refine ⟨?_, ?_, ?_, ?_, ?_, rfl⟩
  · show (runEpochs C (snapshotLP C p0)
      (fun t => (bufAdvantages C v0).getD t 0) p0 v0 perms).2.2 = []
    rw [h2]
  · show (runEpochs C (snapshotLP C p0)
      (fun t => (bufAdvantages C v0).getD t 0) p0 v0 perms).1 = p0
    rw [h2]
  · show (runEpochs C (snapshotLP C p0)
      (fun t => (bufAdvantages C v0).getD t 0) p0 v0 perms).2.1 = v0
    rw [h2]
  · show phase2TdDelta C v0 = []
    rw [phase2TdDelta, hlen]
    rfl
  · show bufAdvantages C v0 = []
    simp [bufAdvantages, phase2TdDelta, hlen, computeAdvantage, gaeRun]

/-- Concrete empty-buffer context. -/
def eCtx : TrainCtx Unit Nat ℚ :=
  { H := { gamma := 1, lamda := 1, epsilon := 1/5, batchSize := 2 }
    policyProb := fun _ _ _ => 1
    valueFn := fun v _ => v
    logFn := fun _ => 0
    expFn := fun q => q
    stepP := fun p _ => p + 1
    stepV := fun v _ => v + 1
    Bf := { len := 0, obs := fun _ => (), nextObs := fun _ => (), act := fun _ => 0,
            rew := fun _ => 1, done := fun _ => false } }

/-- Claim C9, witness: two epochs over an empty buffer change nothing. -/
theorem C9_witness :
    (train eCtx 7 (3/4) [[], []]).trace = [] ∧
    (train eCtx 7 (3/4) [[], []]).finalP = 7 ∧
    (train eCtx 7 (3/4) [[], []]).finalV = 3/4 ∧
    (train eCtx 7 (3/4) [[], []]).tdDelta = [] ∧
    (train eCtx 7 (3/4) [[], []]).advantages = [] ∧
    computeAdvantage eCtx.H.gamma eCtx.H.lamda [] = [] :=
  C9_empty_buffer eCtx 7 (3/4) [[], []] rfl (by decide) (by decide)

end PPOSpec
